import Mathlib

/-!
Shallow embedding of the ramp-and-supervise scheduling engine of
`sqlair-bench` (`main.go`, `db.go`/ops): the Ramp Controller (`dbRamper`,
`makeDBs`), the Population Spawner (`dbSpawner`), the Operation Runner
(`RunDBOperation`, `runDBOp`) and the SQLair entity operation
`SQLairDB.UpdateModelAgentStatus`.

Entities (values of Go interface type `DB`) are identified by their name;
errors are identified by their message.  Goroutine scheduling is embedded
as explicit event lists: each iteration of a `select` loop consumes one
observation describing which case fired, and timers are embedded as
arithmetic on an abstract clock.
-/

namespace SqlairBench

/-- An entity handle (`DB` in the Go source); only its identity matters to
the scheduling engine, so it is embedded as its name. -/
abbrev DB := Nat

/-- An error value, identified by its message. -/
abbrev Err := String

/-! ### `makeDBs` (main.go)

`makeDBs(opts, x)` loops `i = 0 .. x-1`; each step calls the provider via
`opts.provider.NewDB` and wraps the result.  On the first failure it
returns the entities created so far together with the error; otherwise all
`x` entities and a nil error.  The provider call is embedded as an oracle
`create : Nat → Except Err DB` giving the outcome of the `i`-th creation
attempt of the call. -/

/-- One `makeDBs` loop starting at attempt index `start` with `fuel`
iterations left. -/
def makeDBsAux (create : Nat → Except Err DB) (start : Nat) : Nat → List DB × Option Err
  | 0 => ([], none)
  | Nat.succ k =>
    match create start with
    | Except.error e => ([], some e)
    | Except.ok db =>
      let r := makeDBsAux create (start + 1) k
      (db :: r.1, r.2)

/-- `makeDBs(opts, x)`: the list of entities created (in order) and the
error terminating the batch, if any. -/
def makeDBs (create : Nat → Except Err DB) (x : Nat) : List DB × Option Err :=
  makeDBsAux create 0 x

/-! ### `dbRamper` (main.go)

The ramper loops `for numDBS < max`, each iteration blocking on
`select { case <-t.Dying(): return nil; case <-ticker.C: }`.  A tick calls
`makeDBs(opts, inc)`, adds the created entities to `numDBS` and to the
`dbTotal` counter, publishes each on the channel, and finally returns the
creation error if there was one.  `defer close(newDBCh)` closes the
channel whenever the goroutine returns.  Each loop iteration's select
outcome is embedded as a `RampEvent`. -/

/-- What the ramper's select observed on one loop iteration: the root tomb
dying, or a ticker tick whose `makeDBs` call uses the given creation
oracle. -/
inductive RampEvent where
  | dying : RampEvent
  | tick : (Nat → Except Err DB) → RampEvent

/-- Observable outcome of a `dbRamper` run: the entities published on the
channel in order, the total added to the `dbTotal` counter, whether the
deferred `close` ran, and `some r` when the goroutine returned `r`
(`none` while still running, i.e. the event list ran out). -/
structure RampResult where
  published : List DB
  counter : Nat
  closed : Bool
  result : Option (Option Err)
deriving Repr, DecidableEq

/-- The ramper loop with current entity count `numDBS`, consuming one
`RampEvent` per iteration.  The `numDBS < max` guard is checked before the
select blocks, so with `max` reached the loop returns nil (and the
deferred close runs) without consuming further events. -/
def dbRamperAux (inc max : Nat) : Nat → List RampEvent → RampResult
  | numDBS, [] =>
    if numDBS < max then ⟨[], 0, false, none⟩ else ⟨[], 0, true, some none⟩
  | numDBS, ev :: rest =>
    if numDBS < max then
      match ev with
      | RampEvent.dying => ⟨[], 0, true, some none⟩
      | RampEvent.tick create =>
        let p := makeDBs create inc
        match p.2 with
        | some e => ⟨p.1, p.1.length, true, some (some e)⟩
        | none =>
          let r := dbRamperAux inc max (numDBS + p.1.length) rest
          ⟨p.1 ++ r.published, p.1.length + r.counter, r.closed, r.result⟩
    else ⟨[], 0, true, some none⟩

/-- `dbRamper(t, opts, freq, inc, max)` run from the initial state. -/
def dbRamper (inc max : Nat) (events : List RampEvent) : RampResult :=
  dbRamperAux inc max 0 events

/-- A creation oracle that always succeeds, naming entities by `g`. -/
def okCreate (g : Nat → DB) : Nat → Except Err DB := fun i => Except.ok (g i)

theorem makeDBsAux_ok (g : Nat → DB) :
    ∀ (x start : Nat),
      makeDBsAux (okCreate g) start x = ((List.range' start x).map g, none) := by
  intro x
  induction x with
  | zero => intro start; simp [makeDBsAux, List.range']
  | succ k ih =>
    intro start
    simp [makeDBsAux, okCreate, ih (start + 1), List.range'_succ]

theorem makeDBs_ok (g : Nat → DB) (x : Nat) :
    makeDBs (okCreate g) x = ((List.range x).map g, none) := by
  simp [makeDBs, makeDBsAux_ok, List.range_eq_range']

/-- A creation oracle whose first `f` attempts succeed (named by `g`) and
whose attempt `f` fails with `e`. -/
def failCreate (g : Nat → DB) (e : Err) (f : Nat) : Nat → Except Err DB :=
  fun i => if i < f then Except.ok (g i) else Except.error e

theorem makeDBsAux_fail (g : Nat → DB) (e : Err) (f : Nat) :
    ∀ (fuel start : Nat), start ≤ f → f < start + fuel →
      makeDBsAux (failCreate g e f) start fuel
        = ((List.range' start (f - start)).map g, some e) := by
  intro fuel
  induction fuel with
  | zero => intro start _ h; omega
  | succ k ih =>
    intro start hle hlt
    by_cases hsf : start = f
    · subst hsf
      simp [makeDBsAux, failCreate]
    · have hstart : start < f := lt_of_le_of_ne hle hsf
      have hrange : f - start = (f - (start + 1)) + 1 := by omega
      rw [makeDBsAux]
      simp only [failCreate, if_pos hstart]
      rw [ih (start + 1) (by omega) (by omega), hrange, List.range'_succ]
      simp

theorem makeDBs_fail (g : Nat → DB) (e : Err) (f x : Nat) (h : f < x) :
    makeDBs (failCreate g e f) x = ((List.range f).map g, some e) := by
  rw [makeDBs, makeDBsAux_fail g e f x 0 (Nat.zero_le f) (by omega)]
  simp [List.range_eq_range']

/-- Ramper runs where every observed tick creates its full batch: the
number of entities published equals `min (ticks·inc) (max - numDBS)`, the
counter matches, and once capacity is reached the channel is closed and
the goroutine returns nil. -/
theorem dbRamperAux_ok (inc : Nat) (hinc : 0 < inc) :
    ∀ (events : List RampEvent),
      (∀ ev ∈ events, ∃ g, ev = RampEvent.tick (okCreate g)) →
      ∀ (numDBS max : Nat), inc ∣ (max - numDBS) → numDBS ≤ max →
        (dbRamperAux inc max numDBS events).published.length
            = min (events.length * inc) (max - numDBS)
        ∧ (dbRamperAux inc max numDBS events).counter
            = (dbRamperAux inc max numDBS events).published.length
        ∧ (max ≤ numDBS + events.length * inc →
            (dbRamperAux inc max numDBS events).closed = true
            ∧ (dbRamperAux inc max numDBS events).result = some none) := by
  intro events
  induction events with
  | nil =>
    intro _ numDBS max _ hle
    by_cases h : numDBS < max
    · refine ⟨by simp [dbRamperAux, h], by simp [dbRamperAux, h], ?_⟩
      intro hcap
      simp at hcap
      omega
    · simp [dbRamperAux, h]
  | cons ev rest ih =>
    intro hgood numDBS max hdvd hle
    obtain ⟨g, rfl⟩ := hgood ev (List.mem_cons_self ev rest)
    have hrest : ∀ e ∈ rest, ∃ g, e = RampEvent.tick (okCreate g) :=
      fun e he => hgood e (List.mem_cons_of_mem _ he)
    have hmul : (rest.length + 1) * inc = rest.length * inc + inc :=
      Nat.succ_mul _ _
    by_cases h : numDBS < max
    · have hinc_le : inc ≤ max - numDBS := Nat.le_of_dvd (by omega) hdvd
      have hdvd' : inc ∣ (max - (numDBS + inc)) := by
        obtain ⟨c, hc⟩ := hdvd
        have hc1 : 1 ≤ c := by
          rcases Nat.eq_zero_or_pos c with h0 | h1
          · subst h0; simp at hc; omega
          · exact h1
        refine ⟨c - 1, ?_⟩
        have hms : inc * (c - 1) = inc * c - inc := by
          rw [Nat.mul_sub, Nat.mul_one]
        omega
      have hle' : numDBS + inc ≤ max := by omega
      have := ih hrest (numDBS + inc) max hdvd' hle'
      obtain ⟨h1, h2, h3⟩ := this
      rw [dbRamperAux]
      simp only [if_pos h, makeDBs_ok]
      constructor
      · simp only [List.length_append, List.length_map, List.length_range]
        rw [h1]
        simp only [List.length_cons]
        omega
      constructor
      · simp only [List.length_append, List.length_map, List.length_range]
        omega
      · intro hcap
        simp only [List.length_cons] at hcap
        have := h3 (by omega)
        simpa using this
    · refine ⟨?_, by simp [dbRamperAux, h], by simp [dbRamperAux, h]⟩
      simp [dbRamperAux, h]
      omega

/-- C5: for every ramp configuration with ceiling `k * inc` a positive
multiple of the increment `inc`, absent cancellation and creation failure
(the run consists of at least `k` ticks whose creations all succeed), the
Ramp Controller publishes exactly `k * inc` entities on its channel,
counts them, closes the channel and returns nil; and over any failure-free
run, however many ticks it observes, it never publishes more than the
ceiling. -/
theorem ramp_emits_exactly_ceiling_then_closes
    (inc k : Nat) (events : List RampEvent)
    (hinc : 0 < inc) (hk : 0 < k) (hlen : k ≤ events.length)
    (hgood : ∀ ev ∈ events, ∃ g, ev = RampEvent.tick (okCreate g)) :
    (dbRamper inc (k * inc) events).published.length = k * inc
    ∧ (dbRamper inc (k * inc) events).counter = k * inc
    ∧ (dbRamper inc (k * inc) events).closed = true
    ∧ (dbRamper inc (k * inc) events).result = some none
    ∧ (∀ events2 : List RampEvent,
        (∀ ev ∈ events2, ∃ g, ev = RampEvent.tick (okCreate g)) →
        (dbRamper inc (k * inc) events2).published.length ≤ k * inc) := by
  have hcapmul : k * inc ≤ events.length * inc := Nat.mul_le_mul_right inc hlen
  have hmain := dbRamperAux_ok inc hinc events hgood 0 (k * inc)
    (by simp) (Nat.zero_le _)
  obtain ⟨h1, h2, h3⟩ := hmain
  have hlen1 : (dbRamper inc (k * inc) events).published.length = k * inc := by
    rw [dbRamper, h1]
    omega
  have hcl := h3 (by omega)
  refine ⟨hlen1, ?_, hcl.1, hcl.2, ?_⟩
  · rw [dbRamper, h2, ← dbRamper, hlen1]
  · intro events2 hgood2
    have := (dbRamperAux_ok inc hinc events2 hgood2 0 (k * inc)
      (by simp) (Nat.zero_le _)).1
    rw [dbRamper, this]
    omega

theorem ramp_emits_exactly_ceiling_then_closes_witness :
    (dbRamper 2 (2 * 2) [RampEvent.tick (okCreate id),
        RampEvent.tick (okCreate id)]).published.length = 2 * 2
    ∧ (dbRamper 2 (2 * 2) [RampEvent.tick (okCreate id),
        RampEvent.tick (okCreate id)]).counter = 2 * 2
    ∧ (dbRamper 2 (2 * 2) [RampEvent.tick (okCreate id),
        RampEvent.tick (okCreate id)]).closed = true
    ∧ (dbRamper 2 (2 * 2) [RampEvent.tick (okCreate id),
        RampEvent.tick (okCreate id)]).result = some none
    ∧ (∀ events2 : List RampEvent,
        (∀ ev ∈ events2, ∃ g, ev = RampEvent.tick (okCreate g)) →
        (dbRamper 2 (2 * 2) events2).published.length ≤ 2 * 2) := by
  refine ramp_emits_exactly_ceiling_then_closes 2 2 _ (by omega) (by omega)
    (by simp) ?_
  intro ev hev
  simp only [List.mem_cons, List.not_mem_nil, or_false] at hev
  rcases hev with rfl | rfl <;> exact ⟨id, rfl⟩

/-- C8: a creation failure during a ramp tick terminates the ramp with the
creation error as the goroutine's terminal error, but every entity created
before the failure is still published and counted.  First conjunct:
`makeDBs` returns the entities created earlier in the failing batch along
with the error.  Second conjunct: on a tick whose `makeDBs` fails, the
ramper publishes that partial batch, adds its size to the counter, closes
the channel and returns the creation error.  Third conjunct: a successful
tick's batch stays published (prepended) whatever happens later, so
entities from earlier ticks are never rolled back. -/
theorem creation_failure_publishes_prior_entities :
    (∀ (g : Nat → DB) (e : Err) (f x : Nat), f < x →
       makeDBs (failCreate g e f) x = ((List.range f).map g, some e))
    ∧ (∀ (inc max numDBS : Nat) (create : Nat → Except Err DB)
         (rest : List RampEvent) (dbs : List DB) (e : Err),
         numDBS < max → makeDBs create inc = (dbs, some e) →
         dbRamperAux inc max numDBS (RampEvent.tick create :: rest)
           = ⟨dbs, dbs.length, true, some (some e)⟩)
    ∧ (∀ (inc max numDBS : Nat) (create : Nat → Except Err DB)
         (rest : List RampEvent) (dbs : List DB),
         numDBS < max → makeDBs create inc = (dbs, none) →
         dbRamperAux inc max numDBS (RampEvent.tick create :: rest)
           = ⟨dbs ++ (dbRamperAux inc max (numDBS + dbs.length) rest).published,
              dbs.length + (dbRamperAux inc max (numDBS + dbs.length) rest).counter,
              (dbRamperAux inc max (numDBS + dbs.length) rest).closed,
              (dbRamperAux inc max (numDBS + dbs.length) rest).result⟩) := by
  refine ⟨makeDBs_fail, ?_, ?_⟩
  · intro inc max numDBS create rest dbs e hlt hmk
    rw [dbRamperAux]
    simp [if_pos hlt, hmk]
  · intro inc max numDBS create rest dbs hlt hmk
    rw [dbRamperAux]
    simp [if_pos hlt, hmk]

theorem creation_failure_publishes_prior_entities_witness :
    makeDBs (failCreate id "boom" 1) 2 = ((List.range 1).map id, some "boom")
    ∧ dbRamperAux 2 4 0 [RampEvent.tick (failCreate id "boom" 1)]
        = ⟨[0], 1, true, some (some "boom")⟩ := by
  constructor
  · exact creation_failure_publishes_prior_entities.1 id "boom" 1 2 (by omega)
  · have h := creation_failure_publishes_prior_entities.2.1 2 4 0
      (failCreate id "boom" 1) [] [0] "boom" (by omega) (by decide)
    exact h

/-! ### `runDBOp` and `RunDBOperation` (db.go / ops)

`runDBOp` wraps one operation invocation in a `prometheus.NewTimer` whose
`ObserveDuration` is deferred, so every invocation — successful or failed —
records exactly one duration sample; the invocation's error is returned.
`RunDBOperation` forks a goroutine on the generation tomb: with
`freq == 0` it runs the operation once immediately and returns nil; with
`freq > 0` it sleeps a random initial delay in `[0, freq)`, then loops on
a `select` between the ticker and `t.Dying()`.  The invocation outcome of
each fire is an oracle value (`Option Err`). -/

/-- Per-operation metrics a runner updates: number of samples in the
`db_operation_time` histogram and the `db_operation_errors` counter. -/
structure OpMetrics where
  histSamples : Nat
  errCount : Nat
deriving Repr, DecidableEq

/-- `runDBOp(op, db, obs)`: one histogram sample always (deferred
`ObserveDuration`), and the operation's error is passed through. -/
def runDBOp (m : OpMetrics) (opRes : Option Err) : OpMetrics × Option Err :=
  ({ m with histSamples := m.histSamples + 1 }, opRes)

/-- The `freq == 0` branch of `RunDBOperation`: one immediate `runDBOp`
(no sleep, no ticker); on failure the error counter is incremented and the
failure logged; the goroutine returns nil either way. -/
def runZeroFreq (m : OpMetrics) (opRes : Option Err) : OpMetrics × Option Err :=
  let p := runDBOp m opRes
  match p.2 with
  | some _ => ({ p.1 with errCount := p.1.errCount + 1 }, none)
  | none => (p.1, none)

/-- One select observation of the positive-frequency runner loop: a ticker
tick whose invocation has the given outcome, or the runner's tomb dying. -/
inductive RunnerEvent where
  | tickFire : Option Err → RunnerEvent
  | dying : RunnerEvent
deriving Repr, DecidableEq

/-- The `freq > 0` loop of `RunDBOperation`: on each tick run the
operation (one histogram sample; on error count it, log it and keep
looping), and on dying return nil.  Result `none` means the loop is still
running (the event list ran out); `some r` means the goroutine returned
`r`. -/
def runPosFreqLoop (m : OpMetrics) :
    List RunnerEvent → OpMetrics × Option (Option Err)
  | [] => (m, none)
  | RunnerEvent.dying :: _ => (m, some none)
  | RunnerEvent.tickFire res :: rest =>
    let p := runDBOp m res
    match p.2 with
    | some _ => runPosFreqLoop { p.1 with errCount := p.1.errCount + 1 } rest
    | none => runPosFreqLoop p.1 rest

/-- Fire schedule of a positive-frequency runner relative to its start:
`time.Sleep(initalDelay)` with `initalDelay = rand.Int63n(freq) ∈ [0, freq)`,
then `time.NewTicker(freq)` delivers its `k`-th tick `(k+1)·freq` after
creation, and the `k`-th invocation happens on that tick. -/
def fireTime (initalDelay freq k : Nat) : Nat :=
  initalDelay + (k + 1) * freq

/-- C3 counterexample: the claim places the first invocation within
`[0, period)` of the entity joining the generation, but the runner sleeps
the initial delay and then still waits a full period for the ticker's
first tick: with delay `0` and period `5` the first invocation is at time
`5`, not inside `[0, 5)`. -/
theorem first_fire_not_within_first_period : ¬ fireTime 0 5 0 < 5 := by
  decide

/-- C3 (amended): for `period > 0` the runner draws an initial delay
uniformly from `[0, period)` (`rand.Int63n(freq)`; embedded as any
`d < freq`), the first invocation occurs at `d + period`, i.e. within
`[period, 2·period)` of the entity joining the generation — one period
later than the claim states — and subsequent invocations are spaced by
exactly one period until cancellation. -/
theorem first_fire_in_second_period (d freq : Nat)
    (hfreq : 0 < freq) (hd : d < freq) :
    freq ≤ fireTime d freq 0 ∧ fireTime d freq 0 < 2 * freq
    ∧ ∀ k, fireTime d freq (k + 1) = fireTime d freq k + freq := by
  refine ⟨?_, ?_, ?_⟩
  · simp only [fireTime]
    omega
  · simp only [fireTime]
    omega
  · intro k
    simp only [fireTime]
    ring

theorem first_fire_in_second_period_witness :
    5 ≤ fireTime 2 5 0 ∧ fireTime 2 5 0 < 2 * 5
    ∧ ∀ k, fireTime 2 5 (k + 1) = fireTime 2 5 k + 5 :=
  first_fire_in_second_period 2 5 (by omega) (by omega)

/-- C7: operation invocation failures are non-fatal at every frequency and
every invocation records exactly one duration sample.  `freq == 0`: a
failing fire adds one histogram sample, one error count, and the goroutine
returns nil (never an error, so it cannot kill the generation tomb).
`freq > 0`: after `n` fires of an always-failing operation the histogram
and the error counter have both grown by exactly `n` and the loop is still
running — the runner never terminated because of the errors. -/
theorem operation_failure_nonfatal :
    (∀ (m : OpMetrics) (e : Err),
       runZeroFreq m (some e) = (⟨m.histSamples + 1, m.errCount + 1⟩, none))
    ∧ (∀ (m : OpMetrics) (e : Err) (n : Nat),
       runPosFreqLoop m (List.replicate n (RunnerEvent.tickFire (some e)))
         = (⟨m.histSamples + n, m.errCount + n⟩, none)) := by
  constructor
  · intro m e
    rfl
  · intro m e n
    induction n generalizing m with
    | zero => simp [runPosFreqLoop]
    | succ k ih =>
      rw [List.replicate_succ, runPosFreqLoop]
      simp only [runDBOp, ih]
      refine Prod.ext ?_ rfl
      simp only [OpMetrics.mk.injEq]
      omega

/-! ### `dbSpawner` (main.go)

The spawner goroutine keeps `allDBs` (accumulated) and `dbs` (pending),
plus a generation tomb `opTomb`.  Each loop iteration is a `select` over
the entity channel, `t.Dying()`, `opTomb.Dead()` and a `default` branch
that either spins (pending empty) or restarts the generation.  One
iteration's select outcome is embedded as a `SpawnerObs`; Go's select
semantics (the `default` branch runs only when no other case is ready) is
the predicate `validObs`. -/

/-- An operation definition (`DBOperationDef` in main.go): metric name and
trigger frequency; the operation body is driven by invocation oracles. -/
structure DBOperationDef where
  opName : String
  freq : Nat
deriving Repr, DecidableEq

/-- The benchmark's `perDBOperations` menu (frequencies in seconds). -/
def perDBOperations : List DBOperationDef :=
  [⟨"db-init", 0⟩, ⟨"agent-status-active", 5⟩, ⟨"agent-status-inactive", 8⟩,
   ⟨"agent-events", 15⟩, ⟨"cull-agent-events", 30⟩, ⟨"agents-count", 30⟩,
   ⟨"agent-events-count", 30⟩]

/-- One forked Operation Runner: the generation (restart count) it belongs
to and the (entity, operation) pair it drives. -/
structure OpRunner where
  gen : Nat
  db : DB
  opName : String
deriving Repr, DecidableEq

/-- `startPerDBOperations(opTomb, dbs)` for generation `g`: for every
operation definition (outer loop) and every entity (inner loop), fork one
runner via `RunDBOperation`. -/
def startPerDBOperations (g : Nat) (ops : List DBOperationDef) (dbs : List DB) :
    List OpRunner :=
  ops.flatMap fun op => dbs.map fun db => ⟨g, db, op.opName⟩

/-- The zero-frequency fires contributed by starting one generation over
`dbs`: every freq-0 runner fires exactly once immediately on start
(`runZeroFreq`), so the generation contributes one `(entity, opName)` fire
per freq-0 definition per scheduled entity. -/
def zeroFires (ops : List DBOperationDef) (dbs : List DB) : List (DB × String) :=
  (ops.filter fun op => op.freq == 0).flatMap fun op =>
    dbs.map fun db => (db, op.opName)

/-- A `tomb.Tomb`'s death reason: `none` while alive (`ErrStillAlive`),
`some r` once dying with reason `r` (`none` embeds a nil error). -/
abbrev TombReason := Option (Option Err)

/-- `Tomb.Kill(reason)`: puts the tomb in a dying state; a first non-nil
reason sticks, a nil reason can be overridden by a later error. -/
def tombKill (t : TombReason) (r : Option Err) : TombReason :=
  match t with
  | none => some r
  | some none => some r
  | some (some e) => some (some e)

/-- `Tomb.Alive()`: true while no death reason is set. -/
def tombAlive (t : TombReason) : Bool := t.isNone

/-- `Tomb.Wait()` once every child goroutine has exited: a child returning
a non-nil error killed the tomb with it; otherwise the explicit kill
reason is returned. -/
def tombWait (t : TombReason) (childResults : List (Option Err)) : Option Err :=
  match childResults.filterMap id with
  | e :: _ => some e
  | [] =>
    match t with
    | some r => r
    | none => none

/-- The exit value of a runner honouring cancellation: `RunDBOperation`
returns nil both on `t.Dying()` (`runPosFreqLoop`) and after a
zero-frequency fire (`runZeroFreq`). -/
def runnerCancelResult (_ : OpRunner) : Option Err := none

/-- State of the `dbSpawner` goroutine between loop iterations: the
accumulated entities, the pending entities since the last restart, the
number of restarts so far (= index of the current generation), the current
`opTomb` reason, every runner forked and not yet exited (runners of older
generations stay until they exit — the restart path never waits for them),
and the log of zero-frequency fires. -/
structure SpawnerState where
  allDBs : List DB
  dbs : List DB
  gen : Nat
  tombReason : TombReason
  live : List OpRunner
  zeroFireLog : List (DB × String)
deriving Repr, DecidableEq

/-- The spawner's initial state: nothing accumulated, a fresh tomb, no
runners. -/
def initSpawner : SpawnerState := ⟨[], [], 0, none, [], []⟩

/-- What one iteration of the spawner's `select` observed. -/
inductive SpawnerObs where
  | recv : DB → SpawnerObs
  | chClosed : SpawnerObs
  | dying : SpawnerObs
  | opTombDead : Option Err → SpawnerObs
  | idle : SpawnerObs
deriving Repr, DecidableEq

/-- Readiness of the spawner's select sources at one instant: channel
(`some (some db)` a value, `some none` the close), root tomb dying, and
the generation tomb having died on its own with the given reason. -/
structure Ready where
  chReady : Option (Option DB)
  rootDying : Bool
  genDead : Option (Option Err)
deriving Repr, DecidableEq

/-- Go `select` semantics: an observation is possible iff its case is
ready; the `default` branch (`idle`) is possible only when no case is. -/
def validObs (r : Ready) : SpawnerObs → Bool
  | SpawnerObs.recv db => r.chReady == some (some db)
  | SpawnerObs.chClosed => r.chReady == some none
  | SpawnerObs.dying => r.rootDying
  | SpawnerObs.opTombDead e => r.genDead == some e
  | SpawnerObs.idle => r.chReady == none && !r.rootDying && r.genDead == none

/-- The restart executed in the spawner's `default` branch when pending is
non-empty: append pending to accumulated, `opTomb.Kill(nil)`, then
`if opTomb.Alive() { opTomb.Wait() }` — `Alive()` is false immediately
after `Kill`, so the wait (which would drain `live`) is skipped — then
replace `opTomb` by a fresh tomb and fork one runner per (operation
definition, accumulated entity), each freq-0 runner firing once at
start. -/
def restartStep (ops : List DBOperationDef) (s : SpawnerState) : SpawnerState :=
  let allDBs := s.allDBs ++ s.dbs
  let killed := tombKill s.tombReason none
  let live1 := if tombAlive killed then [] else s.live
  { allDBs := allDBs
    dbs := []
    gen := s.gen + 1
    tombReason := none
    live := live1 ++ startPerDBOperations (s.gen + 1) ops allDBs
    zeroFireLog := s.zeroFireLog ++ zeroFires ops allDBs }

/-- Result of one spawner loop iteration: loop with a new state, or the
goroutine returned. -/
inductive StepResult where
  | next : SpawnerState → StepResult
  | returned : Option Err → StepResult
deriving Repr, DecidableEq

/-- One iteration of the `dbSpawner` loop on its select observation:
receive appends to pending; a channel close only disables that case; root
dying kills the generation tomb with nil and returns its `Wait()`; a
generation tomb dead on its own is fatal and its error is returned;
`default` spins when pending is empty and restarts otherwise. -/
def dbSpawnerStep (ops : List DBOperationDef) (s : SpawnerState) :
    SpawnerObs → StepResult
  | SpawnerObs.recv db => StepResult.next { s with dbs := s.dbs ++ [db] }
  | SpawnerObs.chClosed => StepResult.next s
  | SpawnerObs.dying =>
    StepResult.returned
      (tombWait (tombKill s.tombReason none) (s.live.map runnerCancelResult))
  | SpawnerObs.opTombDead e => StepResult.returned e
  | SpawnerObs.idle =>
    if s.dbs.isEmpty then StepResult.next s
    else StepResult.next (restartStep ops s)

/-- The spawner loop over a list of select observations. -/
def dbSpawnerRun (ops : List DBOperationDef) (s : SpawnerState) :
    List SpawnerObs → StepResult
  | [] => StepResult.next s
  | o :: rest =>
    match dbSpawnerStep ops s o with
    | StepResult.next s2 => dbSpawnerRun ops s2 rest
    | StepResult.returned e => StepResult.returned e

/-- The number of zero-frequency fires recorded for `(db, opName)` in a
spawner run's final state. -/
def zeroFireCount (r : StepResult) (db : DB) (opName : String) : Nat :=
  match r with
  | StepResult.next s => s.zeroFireLog.count (db, opName)
  | StepResult.returned _ => 0

theorem tombAlive_kill (t : TombReason) (r : Option Err) :
    tombAlive (tombKill t r) = false := by
  cases t with
  | none => rfl
  | some r0 => cases r0 <;> rfl

theorem filterMap_const_none {α β : Type} (l : List α) :
    l.filterMap (fun _ => (none : Option β)) = [] := by
  induction l with
  | nil => rfl
  | cons a rest ih => simp [List.filterMap_cons, ih]

/-- C4: the accumulated entity sequence is append-only — across a single
spawner step and across any whole run — and a generation restart appends
pending to accumulated, clears pending, and forks exactly one runner of
the new generation for every pair in accumulated × operationDefinitions
(the freshly started runner list is `startPerDBOperations` over the full
accumulated list, whose members are exactly that product); hence after a
restart following an entity's arrival the entity has a new-generation
runner for every operation definition. -/
theorem spawner_restart_schedules_full_product (ops : List DBOperationDef) :
    (∀ (s : SpawnerState) (o : SpawnerObs) (s2 : SpawnerState),
       dbSpawnerStep ops s o = StepResult.next s2 →
       ∃ t, s2.allDBs = s.allDBs ++ t)
    ∧ (∀ (s : SpawnerState) (obsList : List SpawnerObs) (s2 : SpawnerState),
       dbSpawnerRun ops s obsList = StepResult.next s2 →
       ∃ t, s2.allDBs = s.allDBs ++ t)
    ∧ (∀ s : SpawnerState,
       (restartStep ops s).allDBs = s.allDBs ++ s.dbs
       ∧ (restartStep ops s).dbs = []
       ∧ (restartStep ops s).live
           = s.live ++ startPerDBOperations (s.gen + 1) ops (s.allDBs ++ s.dbs))
    ∧ (∀ (g : Nat) (dbs : List DB) (r : OpRunner),
       r ∈ startPerDBOperations g ops dbs
         ↔ r.gen = g ∧ r.db ∈ dbs ∧ r.opName ∈ ops.map DBOperationDef.opName) := by
  have hstep : ∀ (s : SpawnerState) (o : SpawnerObs) (s2 : SpawnerState),
      dbSpawnerStep ops s o = StepResult.next s2 →
      ∃ t, s2.allDBs = s.allDBs ++ t := by
    intro s o s2 h
    cases o with
    | recv db =>
      simp only [dbSpawnerStep, StepResult.next.injEq] at h
      subst h
      exact ⟨[], by simp⟩
    | chClosed =>
      simp only [dbSpawnerStep, StepResult.next.injEq] at h
      subst h
      exact ⟨[], by simp⟩
    | dying => simp [dbSpawnerStep] at h
    | opTombDead e => simp [dbSpawnerStep] at h
    | idle =>
      simp only [dbSpawnerStep] at h
      by_cases hd : s.dbs.isEmpty
      · rw [if_pos hd, StepResult.next.injEq] at h
        subst h
        exact ⟨[], by simp⟩
      · rw [if_neg hd, StepResult.next.injEq] at h
        subst h
        exact ⟨s.dbs, rfl⟩
  refine ⟨hstep, ?_, ?_, ?_⟩
  · intro s obsList
    induction obsList generalizing s with
    | nil =>
      intro s2 h
      simp only [dbSpawnerRun, StepResult.next.injEq] at h
      subst h
      exact ⟨[], by simp⟩
    | cons o rest ih =>
      intro s2 h
      rw [dbSpawnerRun] at h
      cases hs : dbSpawnerStep ops s o with
      | next s1 =>
        rw [hs] at h
        obtain ⟨t1, ht1⟩ := hstep s o s1 hs
        obtain ⟨t2, ht2⟩ := ih s1 s2 h
        exact ⟨t1 ++ t2, by rw [ht2, ht1, List.append_assoc]⟩
      | returned e =>
        rw [hs] at h
        cases h
  · intro s
    refine ⟨rfl, rfl, ?_⟩
    show (if tombAlive (tombKill s.tombReason none) then [] else s.live)
        ++ startPerDBOperations (s.gen + 1) ops (s.allDBs ++ s.dbs) = _
    rw [tombAlive_kill]
    simp
  · intro g dbs r
    simp only [startPerDBOperations, List.mem_flatMap, List.mem_map]
    constructor
    · rintro ⟨op, hop, db, hdb, rfl⟩
      exact ⟨rfl, hdb, op, hop, rfl⟩
    · rintro ⟨hg, hdb, op, hop, hname⟩
      refine ⟨op, hop, r.db, hdb, ?_⟩
      cases r with
      | mk rg rdb rname =>
        simp only at hg hname ⊢
        rw [hg, hname]

/-- The spawner state after receiving entity `0` and performing one
restart. -/
def sAfterOneRestart : SpawnerState :=
  ⟨[0], [], 1, none, startPerDBOperations 1 perDBOperations [0],
   zeroFires perDBOperations [0]⟩

theorem spawner_restart_schedules_full_product_witness :
    ∃ t, sAfterOneRestart.allDBs = initSpawner.allDBs ++ t :=
  (spawner_restart_schedules_full_product perDBOperations).2.1 initSpawner
    [SpawnerObs.recv 0, SpawnerObs.idle] sAfterOneRestart (by decide)

/-- A spawner state in which the generation-1 runner for
(entity 0, "agent-status-active") has not yet exited while entity 1 is
pending — the situation at any restart whose previous runners are slow to
honour cancellation. -/
def overlapState : SpawnerState :=
  ⟨[0], [1], 1, none, [⟨1, 0, "agent-status-active"⟩], []⟩

/-- C1: evaluating the spawner's restart at `overlapState`:
`opTomb.Kill(nil)` makes `opTomb.Alive()` false, so the
`if opTomb.Alive() { opTomb.Wait() }` that would await the old generation
is skipped (first conjunct), and generation 2's runners are started while
the generation-1 runner for the same (entity, operation) pair is still
executing (second and third conjuncts) — the replacement generation is not
preceded by a wait, contradicting the claim. -/
theorem generation_overlap_on_restart :
    tombAlive (tombKill overlapState.tombReason none) = false
    ∧ (⟨1, 0, "agent-status-active"⟩ : OpRunner)
        ∈ (restartStep perDBOperations overlapState).live
    ∧ (⟨2, 0, "agent-status-active"⟩ : OpRunner)
        ∈ (restartStep perDBOperations overlapState).live := by
  decide

/-- C6 counterexample: with the inflow channel empty, the root tomb not
dying, the generation tomb alive and the pending set empty, the select's
`default` branch is enabled (`validObs ... idle = true`) and the step it
takes leaves the state unchanged — an enabled busy-poll self-loop.  An
idle-wait, i.e. a select without a `default` branch, would admit no step
at all until some source becomes ready, so the second half of the claim
(the spawner "idle-waits ... rather than spinning") is false of the
code. -/
theorem spawner_spins_when_idle :
    validObs ⟨none, false, none⟩ SpawnerObs.idle = true
    ∧ dbSpawnerStep perDBOperations initSpawner SpawnerObs.idle
        = StepResult.next initSpawner := by
  decide

/-- C6 (amended): on every iteration, if an entity is ready on the inflow
channel the `default` branch cannot be selected (so no restart happens
while entities are arriving) and a receive appends the entity to pending;
the `default` branch runs only when the channel has nothing ready; and
when additionally pending is empty the spawner busy-polls — it takes a
state-preserving step and re-probes the select immediately — rather than
blocking until the next arrival. -/
theorem spawner_receives_before_restart_and_spins (ops : List DBOperationDef) :
    (∀ (r : Ready) (db : DB), r.chReady = some (some db) →
       validObs r SpawnerObs.idle = false)
    ∧ (∀ (s : SpawnerState) (db : DB),
       dbSpawnerStep ops s (SpawnerObs.recv db)
         = StepResult.next { s with dbs := s.dbs ++ [db] })
    ∧ (∀ r : Ready, validObs r SpawnerObs.idle = true → r.chReady = none)
    ∧ (∀ s : SpawnerState, s.dbs = [] →
       dbSpawnerStep ops s SpawnerObs.idle = StepResult.next s) := by
  refine ⟨?_, ?_, ?_, ?_⟩
  · intro r db h
    simp [validObs, h]
  · intro s db
    rfl
  · intro r h
    simp only [validObs, Bool.and_eq_true, beq_iff_eq] at h
    exact h.1.1
  · intro s h
    simp [dbSpawnerStep, h]

theorem spawner_receives_before_restart_and_spins_witness :
    validObs ⟨some (some 0), false, none⟩ SpawnerObs.idle = false
    ∧ dbSpawnerStep perDBOperations initSpawner (SpawnerObs.recv 0)
        = StepResult.next { initSpawner with dbs := initSpawner.dbs ++ [0] }
    ∧ (⟨none, false, none⟩ : Ready).chReady = none
    ∧ dbSpawnerStep perDBOperations initSpawner SpawnerObs.idle
        = StepResult.next initSpawner :=
  ⟨(spawner_receives_before_restart_and_spins perDBOperations).1
      ⟨some (some 0), false, none⟩ 0 rfl,
   (spawner_receives_before_restart_and_spins perDBOperations).2.1 initSpawner 0,
   (spawner_receives_before_restart_and_spins perDBOperations).2.2.1
      ⟨none, false, none⟩ (by decide),
   (spawner_receives_before_restart_and_spins perDBOperations).2.2.2
      initSpawner rfl⟩

/-- C2 counterexample: entity 0 arrives and a restart fires its freq-0
"db-init"; entity 1 then arrives and the next restart schedules db-init
again for every accumulated entity, entity 0 included — after two restarts
entity 0's db-init has fired twice, not exactly once for the whole run. -/
theorem zero_freq_refires_after_restart :
    zeroFireCount (dbSpawnerRun perDBOperations initSpawner
        [SpawnerObs.recv 0, SpawnerObs.idle, SpawnerObs.recv 1, SpawnerObs.idle])
        0 "db-init" = 2
    ∧ zeroFireCount (dbSpawnerRun perDBOperations initSpawner
        [SpawnerObs.recv 0, SpawnerObs.idle, SpawnerObs.recv 1, SpawnerObs.idle])
        0 "db-init" ≠ 1 := by
  decide

theorem count_pair_map (dbs : List DB) (db0 : DB) (nm opn : String) :
    ((dbs.map fun db => (db, nm)).count (db0, opn))
      = if nm = opn then dbs.count db0 else 0 := by
  induction dbs with
  | nil => simp
  | cons d rest ih =>
    simp only [List.map_cons, List.count_cons, ih]
    by_cases h1 : nm = opn <;> by_cases h2 : db0 = d <;>
      simp [h1, h2, Prod.ext_iff]

theorem count_zeroFires (ops : List DBOperationDef) (dbs : List DB)
    (db0 : DB) (opn : String) :
    (zeroFires ops dbs).count (db0, opn)
      = (ops.filter fun o => o.freq == 0 && o.opName == opn).length
          * dbs.count db0 := by
  induction ops with
  | nil => simp [zeroFires]
  | cons op rest ih =>
    by_cases hf : op.freq = 0
    · rw [zeroFires, List.filter_cons]
      simp only [hf, beq_self_eq_true, if_pos]
      rw [List.flatMap_cons, List.count_append, count_pair_map]
      rw [zeroFires] at ih
      rw [ih, List.filter_cons]
      by_cases hn : op.opName = opn
      · simp only [hf, hn, beq_self_eq_true, Bool.and_self, if_pos,
          List.length_cons]
        ring
      · have : (op.freq == 0 && op.opName == opn) = false := by
          simp [hn]
        simp [hn, this]
    · have h0 : (op.freq == 0) = false := by simp [hf]
      have h1 : (op.freq == 0 && op.opName == opn) = false := by simp [hf]
      rw [zeroFires, List.filter_cons, h0]
      rw [zeroFires] at ih
      simp only [if_neg, Bool.false_eq_true, not_false_iff]
      rw [ih, List.filter_cons, h1]
      simp

/-- C2 (amended): a frequency-0 operation fires exactly once per
generation per scheduled entity: the zero-frequency runner fires
immediately, records exactly one duration sample, never recurs and exits
nil (second conjunct); and each generation restart schedules it afresh for
every accumulated entity, adding exactly one fire for an entity present
once in the accumulation (first conjunct) — so over a whole run the
operation fires once per restart that includes the entity, not exactly
once. -/
theorem zero_freq_once_per_generation (ops : List DBOperationDef)
    (s : SpawnerState) (db0 : DB) (opn : String)
    (hone : (ops.filter fun o => o.freq == 0 && o.opName == opn).length = 1)
    (hdb : (s.allDBs ++ s.dbs).count db0 = 1) :
    (restartStep ops s).zeroFireLog.count (db0, opn)
        = s.zeroFireLog.count (db0, opn) + 1
    ∧ (∀ (m : OpMetrics) (res : Option Err),
        (runZeroFreq m res).1.histSamples = m.histSamples + 1
        ∧ (runZeroFreq m res).2 = none) := by
  constructor
  · show (s.zeroFireLog ++ zeroFires ops (s.allDBs ++ s.dbs)).count (db0, opn) = _
    rw [List.count_append, count_zeroFires, hone, hdb]
  · intro m res
    cases res <;> simp [runZeroFreq, runDBOp]

theorem zero_freq_once_per_generation_witness :
    (restartStep perDBOperations ⟨[], [0], 0, none, [], []⟩).zeroFireLog.count
        (0, "db-init")
      = (⟨[], [0], 0, none, [], []⟩ : SpawnerState).zeroFireLog.count
          (0, "db-init") + 1
    ∧ (∀ (m : OpMetrics) (res : Option Err),
        (runZeroFreq m res).1.histSamples = m.histSamples + 1
        ∧ (runZeroFreq m res).2 = none) :=
  zero_freq_once_per_generation perDBOperations ⟨[], [0], 0, none, [], []⟩
    0 "db-init" (by decide) (by decide)

/-- C9: cancellation is never reported as an error.  The Ramp Controller
returns nil on `t.Dying()` and the deferred close runs; a
positive-frequency Operation Runner returns nil at its next cancellation
check and a zero-frequency runner exits nil unconditionally; the
Population Spawner on root cancellation kills the generation tomb with nil
and returns its `Wait()`, which is nil because every runner's exit value
is nil; and every state a spawner run can reach keeps the generation tomb
alive (reason unset), so the hypothesis of the spawner conjunct holds of
every reachable state. -/
theorem cancellation_returns_nil (ops : List DBOperationDef) :
    (∀ (inc max numDBS : Nat) (rest : List RampEvent),
       (dbRamperAux inc max numDBS (RampEvent.dying :: rest)).result = some none
       ∧ (dbRamperAux inc max numDBS (RampEvent.dying :: rest)).closed = true)
    ∧ (∀ (m : OpMetrics) (rest : List RunnerEvent),
       runPosFreqLoop m (RunnerEvent.dying :: rest) = (m, some none))
    ∧ (∀ (m : OpMetrics) (res : Option Err), (runZeroFreq m res).2 = none)
    ∧ (∀ s : SpawnerState, s.tombReason = none →
       dbSpawnerStep ops s SpawnerObs.dying = StepResult.returned none)
    ∧ (∀ (obsList : List SpawnerObs) (s2 : SpawnerState),
       dbSpawnerRun ops initSpawner obsList = StepResult.next s2 →
       s2.tombReason = none) := by
  refine ⟨?_, ?_, ?_, ?_, ?_⟩
  · intro inc max numDBS rest
    rw [dbRamperAux]
    by_cases h : numDBS < max <;> simp [h]
  · intro m rest
    rfl
  · intro m res
    cases res <;> rfl
  · intro s hs
    simp only [dbSpawnerStep, hs, tombKill, tombWait]
    have hnil : List.filterMap id (List.map runnerCancelResult s.live) = [] := by
      rw [List.filterMap_map]
      exact filterMap_const_none s.live
    rw [hnil]
  · have hstep : ∀ (s : SpawnerState) (o : SpawnerObs) (s2 : SpawnerState),
        s.tombReason = none → dbSpawnerStep ops s o = StepResult.next s2 →
        s2.tombReason = none := by
      intro s o s2 hs h
      cases o with
      | recv db =>
        simp only [dbSpawnerStep, StepResult.next.injEq] at h
        subst h
        exact hs
      | chClosed =>
        simp only [dbSpawnerStep, StepResult.next.injEq] at h
        subst h
        exact hs
      | dying => simp [dbSpawnerStep] at h
      | opTombDead e => simp [dbSpawnerStep] at h
      | idle =>
        simp only [dbSpawnerStep] at h
        by_cases hd : s.dbs.isEmpty
        · rw [if_pos hd, StepResult.next.injEq] at h
          subst h
          exact hs
        · rw [if_neg hd, StepResult.next.injEq] at h
          subst h
          rfl
    have hrun : ∀ (obsList : List SpawnerObs) (s s2 : SpawnerState),
        s.tombReason = none → dbSpawnerRun ops s obsList = StepResult.next s2 →
        s2.tombReason = none := by
      intro obsList
      induction obsList with
      | nil =>
        intro s s2 hs h
        simp only [dbSpawnerRun, StepResult.next.injEq] at h
        subst h
        exact hs
      | cons o rest ih =>
        intro s s2 hs h
        rw [dbSpawnerRun] at h
        cases hstp : dbSpawnerStep ops s o with
        | next s1 =>
          rw [hstp] at h
          exact ih s1 s2 (hstep s o s1 hs hstp) h
        | returned e =>
          rw [hstp] at h
          cases h
    intro obsList s2 h
    exact hrun obsList initSpawner s2 rfl h

theorem cancellation_returns_nil_witness :
    ((dbRamperAux 2 4 0 [RampEvent.dying]).result = some none
      ∧ (dbRamperAux 2 4 0 [RampEvent.dying]).closed = true)
    ∧ runPosFreqLoop ⟨3, 1⟩ [RunnerEvent.dying] = (⟨3, 1⟩, some none)
    ∧ (runZeroFreq ⟨3, 1⟩ (some "boom")).2 = none
    ∧ dbSpawnerStep perDBOperations initSpawner SpawnerObs.dying
        = StepResult.returned none
    ∧ initSpawner.tombReason = none :=
  ⟨(cancellation_returns_nil perDBOperations).1 2 4 0 [],
   (cancellation_returns_nil perDBOperations).2.1 ⟨3, 1⟩ [],
   (cancellation_returns_nil perDBOperations).2.2.1 ⟨3, 1⟩ (some "boom"),
   (cancellation_returns_nil perDBOperations).2.2.2.1 initSpawner rfl,
   (cancellation_returns_nil perDBOperations).2.2.2.2 [] initSpawner (by decide)⟩

/-! ### `SQLairDB.UpdateModelAgentStatus` (db.go)

The method selects up to `agentUpdates` random agent uuids, creates a
temporary table, inserts each selected uuid into it, updates the status of
the agents whose uuid is in the temporary table, and drops the table.  Its
queries are embedded through an outcome environment; uuids selected from
the `GetAll` are identified by numbers. -/

/-- Outcomes of the individual queries `UpdateModelAgentStatus` issues
against its substrate: the uuid select (`GetAll`), the temporary-table
creation, the per-uuid inserts, the status update, and the table drop. -/
structure UpdateEnv where
  selectRes : Except Err (List Nat)
  createTableRes : Option Err
  insertRes : Nat → Option Err
  updateRes : Option Err
  dropRes : Option Err

/-- The insert loop `for _, m := range ms { ... }`: first insert error, if
any (the source stops the loop at the first failure). -/
def firstInsertErr (f : Nat → Option Err) : List Nat → Option Err
  | [] => none
  | u :: rest =>
    match f u with
    | some e => some e
    | none => firstInsertErr f rest

/-- `SQLairDB.UpdateModelAgentStatus`: the method's returned error and
whether the `UPDATE agent SET status = ...` statement was executed.
Mirrors the source exactly — in particular the `if err != nil
{ return nil }` after the temporary-table creation and after each insert,
which drop the error and skip the update. -/
def sqlairUpdateModelAgentStatus (env : UpdateEnv) : Option Err × Bool :=
  match env.selectRes with
  | Except.error e => (some e, false)
  | Except.ok ms =>
    match env.createTableRes with
    | some _ => (none, false)
    | none =>
      match firstInsertErr env.insertRes ms with
      | some _ => (none, false)
      | none =>
        match env.updateRes with
        | some e => (some e, false)
        | none => (env.dropRes, true)

/-- C10: the SQLair-backed `UpdateModelAgentStatus` can report success
while performing no status update: if creating the temporary uuid table
fails (first conjunct) or inserting any selected uuid into it fails
(second conjunct), the method returns nil — silently dropping both the
failure and the update, which is never executed. -/
theorem sqlair_update_swallows_errors (env : UpdateEnv) (ms : List Nat) :
    (env.selectRes = Except.ok ms → env.createTableRes ≠ none →
       sqlairUpdateModelAgentStatus env = (none, false))
    ∧ (env.selectRes = Except.ok ms → env.createTableRes = none →
       firstInsertErr env.insertRes ms ≠ none →
       sqlairUpdateModelAgentStatus env = (none, false)) := by
  constructor
  · intro hsel hct
    rw [sqlairUpdateModelAgentStatus, hsel]
    cases hc : env.createTableRes with
    | none => exact absurd hc hct
    | some e => rfl
  · intro hsel hct hins
    cases hi : firstInsertErr env.insertRes ms with
    | none => exact absurd hi hins
    | some e => simp [sqlairUpdateModelAgentStatus, hsel, hct, hi]

theorem sqlair_update_swallows_errors_witness :
    sqlairUpdateModelAgentStatus
        ⟨Except.ok [7], some "create temp table failed", fun _ => none,
         none, none⟩ = (none, false)
    ∧ sqlairUpdateModelAgentStatus
        ⟨Except.ok [7], none, fun _ => some "insert failed", none, none⟩
        = (none, false) :=
  ⟨(sqlair_update_swallows_errors
      ⟨Except.ok [7], some "create temp table failed", fun _ => none,
       none, none⟩ [7]).1 rfl (by simp),
   (sqlair_update_swallows_errors
      ⟨Except.ok [7], none, fun _ => some "insert failed", none, none⟩
      [7]).2 rfl rfl (by simp [firstInsertErr])⟩

end SqlairBench
